import Mathlib

/-!
# PantryWise core: shallow embedding and verification

This file embeds the core computational logic of the PantryWise
application (`src/app.py`) in Lean 4 and proves properties about it:

* `convert_unit`   — unit conversion over a family table (app.py lines 81-90);
* `compute_recipe_match` — the pure have/missing matching loop
  (app.py lines 109-168), taking the fetched ingredient and pantry rows
  as explicit inputs;
* `merge_into_pantry` — the pantry upsert policy (app.py lines 170-218),
  over an explicit list-of-rows database state.

Quantities are modelled as exact rationals (`ℚ`), units as
`Option String` (SQL NULL = `none`), and dates as `ℕ` (any linearly
ordered encoding of calendar dates).  Python `dict`s are modelled as
insertion-ordered association lists.
-/

/-- Association-list lookup, first match wins (models Python `dict`
indexing / membership, and iteration in insertion order). -/
def alookup {α : Type} (k : String) : List (String × α) → Option α
  | [] => none
  | (k', v) :: rest => if k' = k then some v else alookup k rest

/-- Python `str.lower()`, modelled character-wise. -/
def strLower (s : String) : String := ⟨s.data.map Char.toLower⟩

/-- Python string-or-None coercion: `s or ""` (`None` and `""` are falsy). -/
def optStr (o : Option String) : String := o.getD ""

/-- A conversion table: family name ↦ (unit name ↦ factor-to-base),
in insertion order, as loaded by `load_unit_conversions` (app.py 66-79). -/
abbrev ConvTable := List (String × List (String × ℚ))

/-- The family scan of `convert_unit` (app.py 87-89): walk the families in
order; in the first family whose unit dict contains both `u1` and `u2`,
return the pair of factors `(units[u1], units[u2])`. -/
def convFind (u1 u2 : String) : ConvTable → Option (ℚ × ℚ)
  | [] => none
  | (_, units) :: rest =>
    match alookup u1 units, alookup u2 units with
    | some f1, some f2 => some (f1, f2)
    | _, _ => convFind u1 u2 rest

/-- The function `convert_unit(qty, from_unit, to_unit, conversions)` (app.py 81-90):
absent when either unit is falsy; identity on case-insensitive equality;
otherwise `qty * units[u1] / units[u2]` from the first family containing
both lowered units; absent when no family does. -/
def convert_unit (qty : ℚ) (from_unit to_unit : Option String)
    (conversions : ConvTable) : Option ℚ :=
  if optStr from_unit = "" ∨ optStr to_unit = "" then none
  else
    let u1 := strLower (optStr from_unit)
    let u2 := strLower (optStr to_unit)
    if u1 = u2 then some qty
    else
      match convFind u1 u2 conversions with
      | some (f1, f2) => some (qty * f1 / f2)
      | none => none

/-- Variant of `convert_unit` with Python's division semantics made explicit: the
expression `qty * units[u1] / units[u2]` raises `ZeroDivisionError`
(modelled as `.error ()`) when the denominator factor is zero; every
other path returns normally. -/
def convert_unitE (qty : ℚ) (from_unit to_unit : Option String)
    (conversions : ConvTable) : Except Unit (Option ℚ) :=
  if optStr from_unit = "" ∨ optStr to_unit = "" then .ok none
  else
    let u1 := strLower (optStr from_unit)
    let u2 := strLower (optStr to_unit)
    if u1 = u2 then .ok (some qty)
    else
      match convFind u1 u2 conversions with
      | some (f1, f2) => if f2 = 0 then .error () else .ok (some (qty * f1 / f2))
      | none => .ok none

/-- Round a rational to the nearest integer, ties to even
(the idealisation of Python's `round` on exact values). -/
def roundHalfEven (x : ℚ) : ℤ :=
  let n := ⌊x⌋
  let frac := x - n
  if frac < 1/2 then n
  else if 1/2 < frac then n + 1
  else if n % 2 = 0 then n else n + 1

/-- Python `round(x, 2)` idealised over exact rationals. -/
def round2 (x : ℚ) : ℚ := (roundHalfEven (100 * x) : ℚ) / 100

/-- One row of the `pantry_items` fetch: `item_name`, `unit`, `quantity`. -/
structure PantryRow where
  item_name : String
  unit : Option String
  quantity : ℚ
  deriving DecidableEq

/-- One row of the `recipe_ingredients` fetch: `ingredient_name`,
`amount` (NULL/falsy defaults to 0 via `float(r["amount"] or 0)`),
`unit`. -/
structure Ingredient where
  ingredient_name : String
  amount : Option ℚ
  unit : Option String
  deriving DecidableEq

/-- An entry of the `have` list (app.py 148-153). -/
structure HaveItem where
  name : String
  need : ℚ
  unit : Option String
  haveQty : ℚ
  deriving DecidableEq

/-- An entry of the `missing` list (app.py 156-162). -/
structure MissingItem where
  name : String
  need : ℚ
  unit : Option String
  haveQty : ℚ
  short : ℚ
  deriving DecidableEq

/-- The dictionary returned by `compute_recipe_match` (app.py 168). -/
structure MatchStats where
  haveList : List HaveItem
  missingList : List MissingItem
  match_pct : ℚ
  total : ℕ
  have_count : ℕ
  deriving DecidableEq

/-- Append `v` to the bucket of key `k`, creating the bucket at the end
when absent — the Python dict build at app.py 111-116. -/
def mapAppend (m : List (String × List PantryRow)) (k : String) (v : PantryRow) :
    List (String × List PantryRow) :=
  match m with
  | [] => [(k, [v])]
  | (k', vs) :: rest =>
    if k' = k then (k', vs ++ [v]) :: rest else (k', vs) :: mapAppend rest k v

/-- Group pantry rows by lower-cased item name (app.py 111-116). -/
def buildPantryMap (pantry : List PantryRow) : List (String × List PantryRow) :=
  pantry.foldl (fun m p => mapAppend m (strLower p.item_name) p) []

/-- The unit comparison of app.py 136:
`(p_unit or "").lower() == (req_unit or "").lower()`. -/
def unit_matches (p_unit req_unit : Option String) : Bool :=
  strLower (optStr p_unit) = strLower (optStr req_unit)

/-- The inner accumulation of app.py 131-144: add `m.quantity` on a unit
match, else add a successful conversion, else leave the total alone. -/
def stock_contrib (conv_table : ConvTable) (req_unit : Option String)
    (total : ℚ) (m : PantryRow) : ℚ :=
  if unit_matches m.unit req_unit then total + m.quantity
  else
    match convert_unit m.quantity m.unit req_unit conv_table with
    | some c => total + c
    | none => total

/-- The value `total_on_hand_in_req_unit` after the loop of app.py 129-144. -/
def total_on_hand (conv_table : ConvTable) (stocks : List PantryRow)
    (req_unit : Option String) : ℚ :=
  stocks.foldl (stock_contrib conv_table req_unit) 0

/-- One iteration of the ingredient loop (app.py 121-162), threading the
`have`/`missing` accumulators. -/
def classify (pantry_map : List (String × List PantryRow)) (conv_table : ConvTable)
    (acc : List HaveItem × List MissingItem) (r : Ingredient) :
    List HaveItem × List MissingItem :=
  let req_amount := r.amount.getD 0
  let stocks := (alookup (strLower r.ingredient_name) pantry_map).getD []
  let total := total_on_hand conv_table stocks r.unit
  if req_amount ≤ total then
    (acc.1 ++ [⟨r.ingredient_name, req_amount, r.unit, round2 total⟩], acc.2)
  else
    (acc.1, acc.2 ++ [⟨r.ingredient_name, req_amount, r.unit, round2 total,
      round2 (max (req_amount - total) 0)⟩])

/-- The pure core of `compute_recipe_match` (app.py 109-168). -/
def compute_recipe_match (ings : List Ingredient) (pantry : List PantryRow)
    (conv_table : ConvTable) : MatchStats :=
  let pantry_map := buildPantryMap pantry
  let hm := ings.foldl (classify pantry_map conv_table) ([], [])
  let total_need : ℕ := if ings.isEmpty then 1 else ings.length
  let have_count : ℕ := hm.1.length
  { haveList := hm.1
    missingList := hm.2
    match_pct := round2 (100 * (have_count : ℚ) / (total_need : ℚ))
    total := total_need
    have_count := have_count }

/-- The pantry bucket for name `nm`: pantry rows whose lower-cased name
equals `nm` lower-cased. -/
def spec_bucket (pantry : List PantryRow) (nm : String) : List PantryRow :=
  pantry.filter (fun p => strLower p.item_name = strLower nm)

/-- Per-stock-entry contribution as the spec words it: the quantity on a
case-insensitive unit match, a successful conversion's value otherwise,
and nothing (0) when conversion is absent. -/
def spec_contrib (table : ConvTable) (req_unit : Option String) (m : PantryRow) : ℚ :=
  if unit_matches m.unit req_unit then m.quantity
  else (convert_unit m.quantity m.unit req_unit table).getD 0

/-- The spec-side running total for ingredient `r`. -/
def spec_total (pantry : List PantryRow) (table : ConvTable) (r : Ingredient) : ℚ :=
  ((spec_bucket pantry r.ingredient_name).map (spec_contrib table r.unit)).sum

/-- Whether ingredient `r` is satisfied: `total ≥ requiredAmount`. -/
def spec_satisfied (pantry : List PantryRow) (table : ConvTable) (r : Ingredient) : Bool :=
  r.amount.getD 0 ≤ spec_total pantry table r

/-- The `have` record the spec prescribes for a satisfied ingredient. -/
def spec_have_entry (pantry : List PantryRow) (table : ConvTable) (r : Ingredient) :
    HaveItem :=
  ⟨r.ingredient_name, r.amount.getD 0, r.unit, round2 (spec_total pantry table r)⟩

/-- The `missing` record the spec prescribes for an unsatisfied
ingredient, with `shortfall = round(max(required - total, 0), 2)`. -/
def spec_missing_entry (pantry : List PantryRow) (table : ConvTable) (r : Ingredient) :
    MissingItem :=
  ⟨r.ingredient_name, r.amount.getD 0, r.unit, round2 (spec_total pantry table r),
    round2 (max (r.amount.getD 0 - spec_total pantry table r) 0)⟩

/-- A full `pantry_items` row. -/
structure DbRow where
  id : ℕ
  user_id : ℕ
  item_name : String
  quantity : ℚ
  unit : Option String
  expires_on : Option ℕ
  deriving DecidableEq

/-- Strict comparison realising `ORDER BY expires_on IS NULL, expires_on
ASC`: present dates ascending, absent dates last. -/
def expLt (a b : Option ℕ) : Bool :=
  match a, b with
  | some x, some y => x < y
  | some _, none => true
  | none, _ => false

/-- One step of the minimal-row selection below: keep the better of the
current candidate and row `r`, ignoring non-qualifying rows. -/
def fe_step (uid : ℕ) (name : String) (unit : Option String)
    (best : Option DbRow) (r : DbRow) : Option DbRow :=
  if r.user_id = uid ∧ r.item_name = name ∧ r.unit = unit then
    match best with
    | none => some r
    | some b => if expLt r.expires_on b.expires_on then some r else some b
  else best

/-- Modelled from the spec: the database schema (hence the column
collation) is not among the sources, so, following the spec's words, the
SQL `item_name = %s` comparison is exact (case-sensitive) string
equality and `unit <=> %s` is null-safe equality (two NULLs compare
equal).  This is the `query_one` of app.py 178-189: among the current
user's rows with the same name and unit, pick the first minimal one
under `ORDER BY expires_on IS NULL, expires_on ASC` (`LIMIT 1`). -/
def find_existing (db : List DbRow) (uid : ℕ) (name : String)
    (unit : Option String) : Option DbRow :=
  db.foldl (fe_step uid name unit) none

/-- The `AUTO_INCREMENT` id for an inserted row. -/
def fresh_id (db : List DbRow) : ℕ := db.foldl (fun m r => max m r.id) 0 + 1

/-- The write phase of `merge_into_pantry` (app.py 191-218), given the
row found by the read phase: bump the found row's quantity (taking the
`LEAST` expiry when an incoming expiry is present, app.py 194-206;
leaving the expiry alone otherwise, app.py 209-212), or insert a fresh
row verbatim (app.py 215-218). -/
def merge_write (db : List DbRow) (found : Option DbRow) (uid : ℕ) (name : String)
    (qty : ℚ) (unit : Option String) (expires_on : Option ℕ) : List DbRow :=
  match found with
  | some existing =>
    match expires_on with
    | some e =>
      db.map fun r =>
        if r.id = existing.id ∧ r.user_id = uid then
          { r with
            quantity := r.quantity + qty
            expires_on :=
              match r.expires_on with
              | none => some e
              | some d => some (min d e) }
        else r
    | none =>
      db.map fun r =>
        if r.id = existing.id ∧ r.user_id = uid then
          { r with quantity := r.quantity + qty }
        else r
  | none =>
    db ++ [{ id := fresh_id db, user_id := uid, item_name := name,
             quantity := qty, unit := unit, expires_on := expires_on }]

/-- The function `merge_into_pantry(uid, name, qty, unit, expires_on)`
(app.py 170-218): find an existing row by name + unit (null-safe on
unit), then update it or insert a new row. -/
def merge_into_pantry (db : List DbRow) (uid : ℕ) (name : String) (qty : ℚ)
    (unit : Option String) (expires_on : Option ℕ) : List DbRow :=
  merge_write db (find_existing db uid name unit) uid name qty unit expires_on

/-- Iterated merge of one and the same incoming item into an initially
empty pantry. -/
def iterate_merge (uid : ℕ) (name : String) (qty : ℚ) (unit : Option String) :
    ℕ → List DbRow
  | 0 => []
  | n + 1 => merge_into_pantry (iterate_merge uid name qty unit n) uid name qty unit none

/-- Expiry reconciliation as the spec words it: an absent incoming expiry
leaves the existing one untouched; a present incoming expiry is adopted
when the existing one is absent, else the earlier of the two wins. -/
def spec_reconcile (existing incoming : Option ℕ) : Option ℕ :=
  match incoming with
  | none => existing
  | some e =>
    match existing with
    | none => some e
    | some d => some (min d e)

/-- The running total the code computes for ingredient `r`, phrased over
the built pantry map. -/
def code_total (pm : List (String × List PantryRow)) (table : ConvTable)
    (r : Ingredient) : ℚ :=
  total_on_hand table ((alookup (strLower r.ingredient_name) pm).getD []) r.unit

/-- The code's satisfaction test for ingredient `r`. -/
def code_sat (pm : List (String × List PantryRow)) (table : ConvTable)
    (r : Ingredient) : Bool :=
  r.amount.getD 0 ≤ code_total pm table r

/-- The `have` entry the code builds. -/
def code_have (pm : List (String × List PantryRow)) (table : ConvTable)
    (r : Ingredient) : HaveItem :=
  ⟨r.ingredient_name, r.amount.getD 0, r.unit, round2 (code_total pm table r)⟩

/-- The `missing` entry the code builds. -/
def code_miss (pm : List (String × List PantryRow)) (table : ConvTable)
    (r : Ingredient) : MissingItem :=
  ⟨r.ingredient_name, r.amount.getD 0, r.unit, round2 (code_total pm table r),
    round2 (max (r.amount.getD 0 - code_total pm table r) 0)⟩

/-- Evaluation bridge: when the units are non-falsy, distinct after
lowering, and the family scan finds factors `(f1, f2)`, the conversion is
`q * f1 / f2`. -/
theorem convert_unit_of_convFind (q : ℚ) (f t : Option String) (T : ConvTable)
    (f1 f2 : ℚ) (h1 : optStr f ≠ "") (h2 : optStr t ≠ "")
    (h3 : strLower (optStr f) ≠ strLower (optStr t))
    (h4 : convFind (strLower (optStr f)) (strLower (optStr t)) T = some (f1, f2)) :
    convert_unit q f t T = some (q * f1 / f2) := by
  unfold convert_unit
  rw [if_neg (by tauto)]
  simp only [if_neg h3, h4]

theorem alookup_mem {α : Type} (k : String) (v : α) :
    ∀ (l : List (String × α)), alookup k l = some v → (k, v) ∈ l
  | [], h => by simp [alookup] at h
  | (k', v') :: rest, h => by
      by_cases hk : k' = k
      · subst hk
        simp [alookup] at h
        subst h
        exact List.mem_cons_self _ _
      · simp only [alookup, if_neg hk] at h
        exact List.mem_cons_of_mem _ (alookup_mem k v rest h)

/-- The family scan is the factor pair taken from the first family (in
insertion order) containing both units. -/
theorem convFind_eq_find (u1 u2 : String) :
    ∀ T : ConvTable,
      convFind u1 u2 T =
        (T.find? fun fam => (alookup u1 fam.2).isSome && (alookup u2 fam.2).isSome).map
          fun fam => ((alookup u1 fam.2).getD 0, (alookup u2 fam.2).getD 0)
  | [] => rfl
  | (fam, units) :: rest => by
      cases h1 : alookup u1 units <;> cases h2 : alookup u2 units <;>
        simp [convFind, List.find?, h1, h2, convFind_eq_find u1 u2 rest]

/-- Swapping the two units swaps the factor pair (the same first family
is found, since containment of both units is symmetric). -/
theorem convFind_swap (u1 u2 : String) {a b : ℚ} :
    ∀ {T : ConvTable}, convFind u1 u2 T = some (a, b) → convFind u2 u1 T = some (b, a)
  | [], h => by simp [convFind] at h
  | (fam, units) :: rest, h => by
      cases h1 : alookup u1 units <;> cases h2 : alookup u2 units <;>
        simp only [convFind, h1, h2, Option.some.injEq, Prod.mk.injEq] at h ⊢
      · exact convFind_swap u1 u2 h
      · exact convFind_swap u1 u2 h
      · exact convFind_swap u1 u2 h
      · exact ⟨h.2, h.1⟩

/-- A successful family scan exhibits a family holding both factors. -/
theorem convFind_mem (u1 u2 : String) {a b : ℚ} :
    ∀ {T : ConvTable}, convFind u1 u2 T = some (a, b) →
      ∃ fam ∈ T, alookup u1 fam.2 = some a ∧ alookup u2 fam.2 = some b
  | [], h => by simp [convFind] at h
  | (fam, units) :: rest, h => by
      cases h1 : alookup u1 units <;> cases h2 : alookup u2 units <;>
        simp only [convFind, h1, h2, Option.some.injEq, Prod.mk.injEq] at h
      case none.none | none.some | some.none =>
        obtain ⟨f, hf, h1', h2'⟩ := convFind_mem u1 u2 h
        exact ⟨f, List.mem_cons_of_mem _ hf, h1', h2'⟩
      case some.some =>
        exact ⟨(fam, units), List.mem_cons_self _ _, by rw [h1, h.1], by rw [h2, h.2]⟩

/-- If some family holds both units, the scan succeeds. -/
theorem convFind_isSome (u1 u2 : String) :
    ∀ {T : ConvTable},
      (∃ fam ∈ T, (alookup u1 fam.2).isSome ∧ (alookup u2 fam.2).isSome) →
      (convFind u1 u2 T).isSome
  | [], h => by simp at h
  | (fam, units) :: rest, h => by
      obtain ⟨f, hf, hf1, hf2⟩ := h
      rcases List.mem_cons.mp hf with heq | hmem
      · subst heq
        obtain ⟨a, ha⟩ := Option.isSome_iff_exists.mp hf1
        obtain ⟨b, hb⟩ := Option.isSome_iff_exists.mp hf2
        simp [convFind, ha, hb]
      · cases h1 : alookup u1 units <;> cases h2 : alookup u2 units <;>
          simp only [convFind, h1, h2, Option.isSome_some] <;>
          exact convFind_isSome u1 u2 ⟨f, hmem, hf1, hf2⟩

/-- C2: `convert_unit` returns absent on a falsy unit; returns the
quantity unchanged on case-insensitive unit equality (no family lookup);
otherwise takes `q * factor(from) / factor(to)` from the first family,
in table insertion order, containing both lowered units; and returns
absent when no family contains both. -/
theorem claim_c2 (q : ℚ) (f t : Option String) (table : ConvTable) :
    convert_unit q f t table =
      if optStr f = "" ∨ optStr t = "" then none
      else if strLower (optStr f) = strLower (optStr t) then some q
      else
        match table.find? fun fam =>
            (alookup (strLower (optStr f)) fam.2).isSome &&
            (alookup (strLower (optStr t)) fam.2).isSome with
        | some fam =>
          some (q * ((alookup (strLower (optStr f)) fam.2).getD 0) /
            ((alookup (strLower (optStr t)) fam.2).getD 0))
        | none => none := by
  unfold convert_unit
  by_cases h1 : optStr f = "" ∨ optStr t = ""
  · simp [h1]
  · rw [if_neg h1, if_neg h1]
    by_cases h2 : strLower (optStr f) = strLower (optStr t)
    · simp [h2]
    · rw [if_neg h2, if_neg h2, convFind_eq_find]
      cases table.find? _ <;> simp

/-- C8: with every factor in the table positive (the data-model
invariant), `convert_unit` never raises: the explicit-exception variant
agrees with the total function on all inputs, i.e. the division by
`factor(toUnit)` is never a division by zero. -/
theorem claim_c8 (q : ℚ) (f t : Option String) (table : ConvTable)
    (hpos : ∀ fam ∈ table, ∀ p ∈ fam.2, 0 < p.2) :
    convert_unitE q f t table = .ok (convert_unit q f t table) := by
  unfold convert_unitE convert_unit
  by_cases h1 : optStr f = "" ∨ optStr t = ""
  · simp [h1]
  · rw [if_neg h1, if_neg h1]
    by_cases h2 : strLower (optStr f) = strLower (optStr t)
    · simp [h2]
    · rw [if_neg h2, if_neg h2]
      cases hc : convFind (strLower (optStr f)) (strLower (optStr t)) table with
      | none => rfl
      | some p =>
        obtain ⟨f1, f2⟩ := p
        obtain ⟨fam, hfam, _, hl2⟩ := convFind_mem _ _ hc
        have hf2 : 0 < f2 := hpos fam hfam _ (alookup_mem _ _ _ hl2)
        show (if f2 = 0 then (Except.error () : Except Unit (Option ℚ))
            else .ok (some (q * f1 / f2))) = .ok (some (q * f1 / f2))
        rw [if_neg hf2.ne']

/-- Witness for C8 at a concrete positive table. -/
theorem claim_c8_witness :
    convert_unitE 3 (some "kg") (some "g") [("mass", [("g", 1), ("kg", 1000)])] =
      .ok (some 3000) := by
  rw [claim_c8 3 (some "kg") (some "g") [("mass", [("g", 1), ("kg", 1000)])] (by decide),
    convert_unit_of_convFind 3 (some "kg") (some "g") _ 1000 1
      (by decide) (by decide) (by decide) (by decide)]
  norm_num

/-- C3: on a recipe with zero required ingredients, `totalIngredients`
is forced to 1, `satisfiedCount` is 0, and `matchPercent` is a defined 0. -/
theorem claim_c3 (pantry : List PantryRow) (table : ConvTable) :
    (compute_recipe_match [] pantry table).total = 1 ∧
    (compute_recipe_match [] pantry table).have_count = 0 ∧
    (compute_recipe_match [] pantry table).match_pct = 0 := by
  refine ⟨rfl, rfl, ?_⟩
  show round2 (100 * ((0 : ℕ) : ℚ) / ((1 : ℕ) : ℚ)) = 0
  norm_num [round2, roundHalfEven]

theorem expLt_irrefl (a : Option ℕ) : expLt a a = false := by
  cases a <;> simp [expLt]

theorem expLt_trans {a b c : Option ℕ} (h1 : expLt a b = true)
    (h2 : expLt b c = true) : expLt a c = true := by
  cases a <;> cases b <;> cases c <;> simp_all [expLt]
  omega

theorem expLt_of_not_of_lt {a b c : Option ℕ} (h1 : expLt a b = false)
    (h2 : expLt a c = true) : expLt b c = true := by
  cases a <;> cases b <;> cases c <;> simp_all [expLt]
  omega

theorem fe_step_none {uid : ℕ} {name : String} {unit : Option String} {r : DbRow}
    (hr : r.user_id = uid ∧ r.item_name = name ∧ r.unit = unit) :
    fe_step uid name unit none r = some r := by
  simp [fe_step, hr]

theorem fe_step_lt {uid : ℕ} {name : String} {unit : Option String} {r b : DbRow}
    (hr : r.user_id = uid ∧ r.item_name = name ∧ r.unit = unit)
    (hlt : expLt r.expires_on b.expires_on = true) :
    fe_step uid name unit (some b) r = some r := by
  simp [fe_step, hr, hlt]

theorem fe_step_ge {uid : ℕ} {name : String} {unit : Option String} {r b : DbRow}
    (hr : r.user_id = uid ∧ r.item_name = name ∧ r.unit = unit)
    (hlt : expLt r.expires_on b.expires_on = false) :
    fe_step uid name unit (some b) r = some b := by
  simp [fe_step, hr, hlt]

theorem fe_step_skip {uid : ℕ} {name : String} {unit : Option String} {r : DbRow}
    {best : Option DbRow}
    (hr : ¬(r.user_id = uid ∧ r.item_name = name ∧ r.unit = unit)) :
    fe_step uid name unit best r = best := by
  simp [fe_step, hr]

/-- The fold result either is the seed or is a qualifying row of the list. -/
theorem fe_fold_origin (uid : ℕ) (name : String) (unit : Option String) :
    ∀ (l : List DbRow) (acc : Option DbRow) (ex : DbRow),
      l.foldl (fe_step uid name unit) acc = some ex →
      acc = some ex ∨
        (ex ∈ l ∧ ex.user_id = uid ∧ ex.item_name = name ∧ ex.unit = unit)
  | [], acc, ex, h => Or.inl h
  | r :: rest, acc, ex, h => by
      rw [List.foldl_cons] at h
      rcases fe_fold_origin uid name unit rest _ ex h with hstep | ⟨hm, hq⟩
      · by_cases hr : r.user_id = uid ∧ r.item_name = name ∧ r.unit = unit
        · cases hacc : acc with
          | none =>
            rw [hacc, fe_step_none hr] at hstep
            cases hstep
            exact Or.inr ⟨List.mem_cons_self _ _, hr⟩
          | some b =>
            cases hlt : expLt r.expires_on b.expires_on with
            | true =>
              rw [hacc, fe_step_lt hr hlt] at hstep
              cases hstep
              exact Or.inr ⟨List.mem_cons_self _ _, hr⟩
            | false =>
              rw [hacc, fe_step_ge hr hlt] at hstep
              exact Or.inl hstep
        · rw [fe_step_skip hr] at hstep
          exact Or.inl hstep
      · exact Or.inr ⟨List.mem_cons_of_mem _ hm, hq⟩

/-- The fold result is no later (under the NULLs-last date order) than
the seed and than every qualifying row of the list. -/
theorem fe_fold_min (uid : ℕ) (name : String) (unit : Option String) :
    ∀ (l : List DbRow) (acc : Option DbRow) (ex : DbRow),
      l.foldl (fe_step uid name unit) acc = some ex →
      (∀ b, acc = some b → expLt b.expires_on ex.expires_on = false) ∧
      (∀ r ∈ l, r.user_id = uid → r.item_name = name → r.unit = unit →
        expLt r.expires_on ex.expires_on = false)
  | [], acc, ex, h => by
      constructor
      · intro b hb
        rw [hb] at h
        cases h
        exact expLt_irrefl _
      · intro r hr
        simp at hr
  | r :: rest, acc, ex, h => by
      rw [List.foldl_cons] at h
      obtain ⟨ihacc, ihrest⟩ := fe_fold_min uid name unit rest _ ex h
      by_cases hr : r.user_id = uid ∧ r.item_name = name ∧ r.unit = unit
      · have hhead : expLt r.expires_on ex.expires_on = false := by
          cases hacc : acc with
          | none =>
            apply ihacc
            rw [hacc, fe_step_none hr]
          | some b =>
            cases hlt : expLt r.expires_on b.expires_on with
            | true =>
              apply ihacc
              rw [hacc, fe_step_lt hr hlt]
            | false =>
              have hb : expLt b.expires_on ex.expires_on = false := by
                apply ihacc
                rw [hacc, fe_step_ge hr hlt]
              cases hre : expLt r.expires_on ex.expires_on with
              | false => rfl
              | true => exact absurd (expLt_of_not_of_lt hlt hre) (by simp [hb])
        refine ⟨?_, ?_⟩
        · intro b hb
          cases hlt : expLt r.expires_on b.expires_on with
          | true =>
            have hbe : expLt b.expires_on ex.expires_on ≠ true := by
              intro hbe
              have : expLt r.expires_on ex.expires_on = true := expLt_trans hlt hbe
              simp [hhead] at this
            simpa using hbe
          | false =>
            apply ihacc
            rw [hb, fe_step_ge hr hlt]
        · intro r' hr' h1 h2 h3
          rcases List.mem_cons.mp hr' with heq | hmem
          · subst heq; exact hhead
          · exact ihrest r' hmem h1 h2 h3
      · refine ⟨?_, ?_⟩
        · intro b hb
          apply ihacc
          rw [hb, fe_step_skip hr]
        · intro r' hr' h1 h2 h3
          rcases List.mem_cons.mp hr' with heq | hmem
          · subst heq; exact absurd ⟨h1, h2, h3⟩ hr
          · exact ihrest r' hmem h1 h2 h3

/-- When the lookup finds row `ex`, the merge maps over the table,
bumping the quantity of the rows keyed by `ex.id` (and the user) and
reconciling their expiry per `spec_reconcile`. -/
theorem merge_found_spec (db : List DbRow) (uid : ℕ) (name : String) (qty : ℚ)
    (unit : Option String) (exp : Option ℕ) (ex : DbRow)
    (h : find_existing db uid name unit = some ex) :
    merge_into_pantry db uid name qty unit exp =
      db.map fun r =>
        if r.id = ex.id ∧ r.user_id = uid then
          { r with
            quantity := r.quantity + qty
            expires_on := spec_reconcile r.expires_on exp }
        else r := by
  unfold merge_into_pantry merge_write
  rw [h]
  cases exp <;> rfl

/-- C4: whenever the merge lookup finds an existing row, that row's
quantity is increased by the incoming quantity and its expiry is
reconciled by the rule: absent incoming expiry leaves it untouched; a
present incoming expiry is adopted when the existing one is absent, and
otherwise the earlier (minimum) of the two dates wins. -/
theorem claim_c4 (db : List DbRow) (uid : ℕ) (name : String) (qty : ℚ)
    (unit : Option String) (exp : Option ℕ) (ex : DbRow)
    (h : find_existing db uid name unit = some ex) :
    merge_into_pantry db uid name qty unit exp =
      db.map fun r =>
        if r.id = ex.id ∧ r.user_id = uid then
          { r with
            quantity := r.quantity + qty
            expires_on := spec_reconcile r.expires_on exp }
        else r :=
  merge_found_spec db uid name qty unit exp ex h

/-- Witness for C4: a found row with expiry 10 merged with incoming
expiry 5 ends at quantity `2 + 3 = 5` and the earlier expiry 5. -/
theorem claim_c4_witness :
    merge_into_pantry [⟨1, 7, "Milk", 2, none, some 10⟩] 7 "Milk" 3 none (some 5) =
      [⟨1, 7, "Milk", 5, none, some 5⟩] := by
  rw [claim_c4 [⟨1, 7, "Milk", 2, none, some 10⟩] 7 "Milk" 3 none (some 5)
    ⟨1, 7, "Milk", 2, none, some 10⟩ (by decide)]
  norm_num [spec_reconcile]

/-- C5: the merge lookup selects only rows of the same user whose name
matches exactly and whose unit matches null-safely, preferring the
earliest non-absent expiry with absent-expiry rows last; and when no row
qualifies, the merge inserts a fresh row carrying the incoming name,
quantity, unit and expiry verbatim. -/
theorem claim_c5 (db : List DbRow) (uid : ℕ) (name : String) (qty : ℚ)
    (unit : Option String) (exp : Option ℕ) :
    (∀ ex, find_existing db uid name unit = some ex →
      ex ∈ db ∧ ex.user_id = uid ∧ ex.item_name = name ∧ ex.unit = unit ∧
      ∀ r ∈ db, r.user_id = uid → r.item_name = name → r.unit = unit →
        expLt r.expires_on ex.expires_on = false) ∧
    (find_existing db uid name unit = none →
      merge_into_pantry db uid name qty unit exp =
        db ++ [{ id := fresh_id db, user_id := uid, item_name := name,
                 quantity := qty, unit := unit, expires_on := exp }]) := by
  constructor
  · intro ex h
    rcases fe_fold_origin uid name unit db none ex h with hnone | ⟨hm, h1, h2, h3⟩
    · cases hnone
    · exact ⟨hm, h1, h2, h3, (fe_fold_min uid name unit db none ex h).2⟩
  · intro h
    unfold merge_into_pantry merge_write
    rw [h]

/-- Witness for C5: with two qualifying rows, the one with the earliest
non-absent expiry is selected over the absent-expiry row; an empty
database leads to a verbatim insert. -/
theorem claim_c5_witness :
    ((⟨2, 7, "Egg", 3, none, some 4⟩ : DbRow) ∈
        [(⟨1, 7, "Egg", 2, none, none⟩ : DbRow), ⟨2, 7, "Egg", 3, none, some 4⟩] ∧
      (7 : ℕ) = 7 ∧ "Egg" = "Egg" ∧ (none : Option String) = none ∧
      ∀ r ∈ [(⟨1, 7, "Egg", 2, none, none⟩ : DbRow), ⟨2, 7, "Egg", 3, none, some 4⟩],
        r.user_id = 7 → r.item_name = "Egg" → r.unit = none →
        expLt r.expires_on (some 4) = false) ∧
    merge_into_pantry [] 7 "Egg" 1 none (some 9) =
      [⟨1, 7, "Egg", 1, none, some 9⟩] := by
  constructor
  · exact (claim_c5 [⟨1, 7, "Egg", 2, none, none⟩, ⟨2, 7, "Egg", 3, none, some 4⟩]
      7 "Egg" 1 none none).1 ⟨2, 7, "Egg", 3, none, some 4⟩ (by decide)
  · exact ((claim_c5 [] 7 "Egg" 1 none (some 9)).2 (by decide)).trans (by decide)

/-- C6: merging the same incoming item (with no expiry) N ≥ 1 times into
an initially empty pantry leaves exactly one row for that (name, unit)
key, with quantity N × incoming quantity. -/
theorem claim_c6 (uid : ℕ) (name : String) (qty : ℚ) (unit : Option String)
    (N : ℕ) (h : 1 ≤ N) :
    iterate_merge uid name qty unit N =
      [{ id := 1, user_id := uid, item_name := name, quantity := (N : ℚ) * qty,
         unit := unit, expires_on := none }] := by
  induction N, h using Nat.le_induction with
  | base =>
    show merge_into_pantry [] uid name qty unit none = _
    unfold merge_into_pantry merge_write find_existing fresh_id
    simp
  | succ n hn ih =>
    show merge_into_pantry (iterate_merge uid name qty unit n) uid name qty unit none = _
    rw [ih]
    have hfind : find_existing
        [{ id := 1, user_id := uid, item_name := name, quantity := (n : ℚ) * qty,
           unit := unit, expires_on := none }] uid name unit =
        some { id := 1, user_id := uid, item_name := name, quantity := (n : ℚ) * qty,
               unit := unit, expires_on := none } := by
      simp [find_existing, fe_step]
    rw [merge_found_spec _ _ _ _ _ _ _ hfind]
    have hq : (n : ℚ) * qty + qty = ((n + 1 : ℕ) : ℚ) * qty := by push_cast; ring
    simp [spec_reconcile, hq]

/-- Witness for C6 at N = 2. -/
theorem claim_c6_witness :
    iterate_merge 7 "rice" 3 none 2 =
      [{ id := 1, user_id := 7, item_name := "rice", quantity := (2 : ℕ) * 3,
         unit := none, expires_on := none }] :=
  claim_c6 7 "rice" 3 none 2 (by norm_num)

/-- C7: for any quantity `x` and non-empty units `A`, `B` that both
occur in some family of the table (whose factors obey the positive-factor
data-model invariant), converting `x` from `A` to `B` and back yields
exactly `x` over exact arithmetic. -/
theorem claim_c7 (x : ℚ) (A B : String) (table : ConvTable)
    (hA : A ≠ "") (hB : B ≠ "")
    (hpos : ∀ fam ∈ table, ∀ p ∈ fam.2, 0 < p.2)
    (hfam : ∃ fam ∈ table,
      (alookup (strLower A) fam.2).isSome ∧ (alookup (strLower B) fam.2).isSome) :
    ∃ y, convert_unit x (some A) (some B) table = some y ∧
      convert_unit y (some B) (some A) table = some x := by
  by_cases hAB : strLower A = strLower B
  · refine ⟨x, ?_, ?_⟩
    · unfold convert_unit
      rw [if_neg (by simp [optStr, hA, hB])]
      simp only [optStr, Option.getD_some, if_pos hAB]
    · unfold convert_unit
      rw [if_neg (by simp [optStr, hA, hB])]
      simp only [optStr, Option.getD_some, if_pos hAB.symm]
  · have hsome := convFind_isSome (strLower A) (strLower B) hfam
    obtain ⟨⟨f1, f2⟩, hc⟩ := Option.isSome_iff_exists.mp hsome
    obtain ⟨fam, hfamm, hl1, hl2⟩ := convFind_mem _ _ hc
    have hf1 : 0 < f1 := hpos fam hfamm _ (alookup_mem _ _ _ hl1)
    have hf2 : 0 < f2 := hpos fam hfamm _ (alookup_mem _ _ _ hl2)
    refine ⟨x * f1 / f2, ?_, ?_⟩
    · exact convert_unit_of_convFind x (some A) (some B) table f1 f2 hA hB hAB hc
    · rw [convert_unit_of_convFind (x * f1 / f2) (some B) (some A) table f2 f1 hB hA
        (fun he => hAB he.symm) (convFind_swap _ _ hc)]
      congr 1
      field_simp

/-- Witness for C7: 2 kg → 2000 g → 2 kg in a one-family mass table. -/
theorem claim_c7_witness :
    ∃ y, convert_unit 2 (some "kg") (some "g") [("mass", [("g", 1), ("kg", 1000)])] = some y ∧
      convert_unit y (some "g") (some "kg") [("mass", [("g", 1), ("kg", 1000)])] = some 2 :=
  claim_c7 2 "kg" "g" [("mass", [("g", 1), ("kg", 1000)])]
    (by decide) (by decide) (by decide) (by decide)

theorem classify_eq (pm : List (String × List PantryRow)) (table : ConvTable)
    (acc : List HaveItem × List MissingItem) (r : Ingredient) :
    classify pm table acc r =
      if code_sat pm table r then (acc.1 ++ [code_have pm table r], acc.2)
      else (acc.1, acc.2 ++ [code_miss pm table r]) := by
  unfold classify code_sat code_have code_miss code_total
  by_cases h : r.amount.getD 0 ≤
      total_on_hand table ((alookup (strLower r.ingredient_name) pm).getD []) r.unit <;>
    simp [h]

/-- The ingredient loop is a stable partition: appends the satisfied
ingredients' entries to the first accumulator and the unsatisfied ones'
to the second, preserving input order. -/
theorem classify_foldl (pm : List (String × List PantryRow)) (table : ConvTable) :
    ∀ (ings : List Ingredient) (h : List HaveItem) (m : List MissingItem),
      ings.foldl (classify pm table) (h, m) =
        (h ++ (ings.filter (code_sat pm table)).map (code_have pm table),
         m ++ (ings.filter fun r => !code_sat pm table r).map (code_miss pm table))
  | [], h, m => by simp
  | r :: ings, h, m => by
      rw [List.foldl_cons, classify_eq]
      cases hs : code_sat pm table r with
      | true =>
        rw [if_pos rfl]
        rw [classify_foldl pm table ings (h ++ [code_have pm table r]) m]
        simp [List.filter_cons, hs]
      | false =>
        rw [if_neg (by simp)]
        rw [classify_foldl pm table ings h (m ++ [code_miss pm table r])]
        simp [List.filter_cons, hs]

theorem alookup_mapAppend (m : List (String × List PantryRow)) (k : String)
    (v : PantryRow) (q : String) :
    (alookup q (mapAppend m k v)).getD [] =
      (alookup q m).getD [] ++ (if k = q then [v] else []) := by
  induction m with
  | nil =>
    by_cases h : k = q <;> simp [mapAppend, alookup, h]
  | cons hd rest ih =>
    obtain ⟨k0, vs⟩ := hd
    by_cases h0 : k0 = k
    · subst h0
      by_cases hq : k0 = q <;> simp [mapAppend, alookup, hq]
    · by_cases hq : k0 = q
      · subst hq
        have h0' : ¬k = k0 := fun h => h0 h.symm
        simp [mapAppend, alookup, h0, h0']
      · simp [mapAppend, alookup, h0, hq, ih]

theorem alookup_buildAux (k : String) :
    ∀ (ps : List PantryRow) (m : List (String × List PantryRow)),
      (alookup k (ps.foldl (fun m p => mapAppend m (strLower p.item_name) p) m)).getD [] =
        (alookup k m).getD [] ++ ps.filter fun p => strLower p.item_name = k
  | [], m => by simp
  | p :: ps, m => by
      rw [List.foldl_cons, alookup_buildAux k ps, alookup_mapAppend]
      by_cases h : strLower p.item_name = k <;>
        simp [List.filter_cons, h]

/-- Looking a key up in the built pantry map yields exactly the pantry
rows whose lower-cased name is that key, in order. -/
theorem alookup_buildPantryMap (pantry : List PantryRow) (k : String) :
    (alookup k (buildPantryMap pantry)).getD [] =
      pantry.filter fun p => strLower p.item_name = k := by
  rw [buildPantryMap, alookup_buildAux]
  simp [alookup]

theorem stock_foldl (table : ConvTable) (req_unit : Option String) :
    ∀ (l : List PantryRow) (a : ℚ),
      l.foldl (stock_contrib table req_unit) a =
        a + (l.map (spec_contrib table req_unit)).sum
  | [], a => by simp
  | m :: l, a => by
      rw [List.foldl_cons, stock_foldl table req_unit l]
      unfold stock_contrib spec_contrib
      cases hu : unit_matches m.unit req_unit with
      | true =>
        simp [hu]
        ring
      | false =>
        rw [List.map_cons, List.sum_cons, if_neg (by simp [hu]), if_neg (by simp [hu])]
        cases hc : convert_unit m.quantity m.unit req_unit table <;> simp [hc]
        ring

/-- The code's total over the built map is the spec's sum over the
name-filtered bucket. -/
theorem code_total_eq (pantry : List PantryRow) (table : ConvTable) (r : Ingredient) :
    code_total (buildPantryMap pantry) table r = spec_total pantry table r := by
  unfold code_total spec_total total_on_hand spec_bucket
  rw [alookup_buildPantryMap, stock_foldl]
  simp

theorem code_sat_eq (pantry : List PantryRow) (table : ConvTable) :
    code_sat (buildPantryMap pantry) table = spec_satisfied pantry table := by
  funext r
  unfold code_sat spec_satisfied
  rw [code_total_eq]

theorem code_have_eq (pantry : List PantryRow) (table : ConvTable) :
    code_have (buildPantryMap pantry) table = spec_have_entry pantry table := by
  funext r
  unfold code_have spec_have_entry
  rw [code_total_eq]

theorem code_miss_eq (pantry : List PantryRow) (table : ConvTable) :
    code_miss (buildPantryMap pantry) table = spec_missing_entry pantry table := by
  funext r
  unfold code_miss spec_missing_entry
  rw [code_total_eq]

/-- The matcher's have/missing lists are the stable partition of the
ingredient list by the spec's satisfaction test, with the spec's entries. -/
theorem match_lists_spec (ings : List Ingredient) (pantry : List PantryRow)
    (table : ConvTable) :
    (compute_recipe_match ings pantry table).haveList =
      (ings.filter (spec_satisfied pantry table)).map (spec_have_entry pantry table) ∧
    (compute_recipe_match ings pantry table).missingList =
      (ings.filter fun r => !spec_satisfied pantry table r).map
        (spec_missing_entry pantry table) := by
  unfold compute_recipe_match
  dsimp only
  rw [classify_foldl, code_sat_eq, code_have_eq, code_miss_eq]
  simp

/-- C1: for every ingredient list, pantry snapshot and conversion table,
the matcher computes for each required ingredient a running total over
the bucket of pantry rows whose lower-cased name equals its own
(quantity added directly on a case-insensitive unit match, a successful
conversion's value otherwise, nothing when conversion is absent), and
records the ingredient in the have list exactly when total ≥ required
(with `have = round(total, 2)`), otherwise in the missing list with the
same fields plus `shortfall = round(max(required - total, 0), 2)`,
preserving the input ingredient order. -/
theorem claim_c1 (ings : List Ingredient) (pantry : List PantryRow)
    (table : ConvTable) :
    (compute_recipe_match ings pantry table).haveList =
      (ings.filter (spec_satisfied pantry table)).map (spec_have_entry pantry table) ∧
    (compute_recipe_match ings pantry table).missingList =
      (ings.filter fun r => !spec_satisfied pantry table r).map
        (spec_missing_entry pantry table) :=
  match_lists_spec ings pantry table

theorem round2_zero : round2 0 = 0 := by
  norm_num [round2, roundHalfEven]

/-- C10: a required ingredient whose amount defaults to 0 is classified
as "have" even against a completely empty pantry (the running total 0
satisfies `total ≥ 0`), counts toward `satisfiedCount`, and thereby
feeds the match percentage. -/
theorem claim_c10 (ings : List Ingredient) (table : ConvTable) :
    (compute_recipe_match ings [] table).haveList =
      (ings.filter fun r => r.amount.getD 0 ≤ 0).map
        (fun r => (⟨r.ingredient_name, r.amount.getD 0, r.unit, 0⟩ : HaveItem)) ∧
    (compute_recipe_match ings [] table).have_count =
      (ings.filter fun r => r.amount.getD 0 ≤ 0).length ∧
    (compute_recipe_match ings [] table).match_pct =
      round2 (100 * ((compute_recipe_match ings [] table).have_count : ℚ) /
        ((compute_recipe_match ings [] table).total : ℚ)) := by
  obtain ⟨h1, h2⟩ := match_lists_spec ings [] table
  have hpred : spec_satisfied [] table = fun r => decide (r.amount.getD 0 ≤ 0) := rfl
  have hent : spec_have_entry [] table =
      fun r => (⟨r.ingredient_name, r.amount.getD 0, r.unit, 0⟩ : HaveItem) := by
    funext r
    show (⟨r.ingredient_name, r.amount.getD 0, r.unit, round2 0⟩ : HaveItem) = _
    rw [round2_zero]
  refine ⟨?_, ?_, rfl⟩
  · rw [h1, hpred, hent]
  · show (compute_recipe_match ings [] table).haveList.length = _
    rw [h1, List.length_map, hpred]

/-- C9: the merge is NOT one atomic unit: its read (`query_one`, one
pooled connection) and its write (`execute`, another connection with its
own commit, db.py 66-78) are separate atomic steps with no enclosing
transaction or lock, as the decomposition in the first conjunct records.
Interleaving two identical merges for the same (user, name, unit) key as
read-read-write-write is therefore possible, and — second conjunct — it
leaves TWO rows for the key in an initially empty pantry, instead of the
single serialised row the claim requires. -/
theorem claim_c9_lost_serialisation :
    (∀ (db : List DbRow) (uid : ℕ) (name : String) (qty : ℚ)
        (unit : Option String) (exp : Option ℕ),
      merge_into_pantry db uid name qty unit exp =
        merge_write db (find_existing db uid name unit) uid name qty unit exp) ∧
    (merge_write (merge_write [] (find_existing [] 1 "salt" none) 1 "salt" 1 none none)
        (find_existing [] 1 "salt" none) 1 "salt" 1 none none).countP
      (fun r => decide (r.user_id = 1 ∧ r.item_name = "salt" ∧ r.unit = none)) = 2 :=
  ⟨fun _ _ _ _ _ _ => rfl, by decide⟩
